import Mathlib

/-!
Shallow embedding of the Foolprof in-process profiler (src/lib.rs,
src/profile.rs, src/time.rs) and verification of its specification.

Machine integers (`u64`, `u128`) are modelled as `Nat` with an explicit
`% 2 ^ w` reduction wherever an intermediate result of the Rust code can
exceed the width of its type; a Rust panic (division by zero, failed
array bounds check) is modelled as `Option.none` / `Except.error`.
-/

namespace Foolprof

def U64 : Nat := 2 ^ 64

def U128 : Nat := 2 ^ 128

/-- Constant `MAX_NUM_PROFILERS` from profile.rs line 6: fixed capacity of the
global `PROFILERS` slot table. -/
def MAX_NUM_PROFILERS : Nat := 0x1000

/-- The `Profile` record (profile.rs lines 10-20): per-probe statistics. -/
structure Profile where
  name : String
  cycles_min : Nat
  cycles_max : Nat
  cycles_avg : Nat
  bytes_min : Nat
  bytes_max : Nat
  bytes_avg : Nat
  samples : Nat
deriving DecidableEq, Repr

/-- Constructor `Profile::new` (profile.rs lines 23-34): every statistics field starts
at zero. -/
def Profile.new (name : String) : Profile :=
  { name := name
    cycles_min := 0
    cycles_max := 0
    cycles_avg := 0
    bytes_min := 0
    bytes_max := 0
    bytes_avg := 0
    samples := 0 }

/-- The min-replacement test of profile.rs line 102:
`(t as u128) * (bytes_min as u128) <= (cycles_min as u128) * (b as u128)`.
For `u64` operands the `u128` products cannot overflow (proved in
`crossmul_u128_matches_unbounded`), so the comparison is the unbounded one. -/
def minCond (t b tmin bmin : Nat) : Bool :=
  t * bmin ≤ tmin * b

/-- The max-replacement test of profile.rs line 109:
`(t as u128) * (bytes_max as u128) >= (cycles_max as u128) * (b as u128)`. -/
def maxCond (t b tmax bmax : Nat) : Bool :=
  tmax * b ≤ t * bmax

/-- The min-replacement test computed the way the machine does: operands
reduced to `u64`, products reduced to `u128`. -/
def minCondU128 (t b tmin bmin : Nat) : Bool :=
  (t % U64) * (bmin % U64) % U128 ≤ (tmin % U64) * (b % U64) % U128

/-- The max-replacement test computed the way the machine does. -/
def maxCondU128 (t b tmax bmax : Nat) : Bool :=
  (tmax % U64) * (b % U64) % U128 ≤ (t % U64) * (bmax % U64) % U128

/-- The body of the `with_lock` closure in `Drop for Profiled`
(profile.rs lines 99-119): fold one `(t, b)` = (elapsed cycles, bytes)
sample into a `Profile`.  The min update (lines 100-105) and max update
(lines 107-112) touch disjoint fields, so the sequential source
assignments are rendered field by field.  The average numerators
`*t0_avg * *n + t` are `u64` arithmetic and wrap at `2 ^ 64`; the
`samples` counter is modelled as unbounded, since reaching its wrap
would take `2 ^ 64` folds. -/
def foldSample (p : Profile) (t b : Nat) : Profile :=
  { name := p.name
    cycles_min := if minCond t b p.cycles_min p.bytes_min then t else p.cycles_min
    bytes_min := if minCond t b p.cycles_min p.bytes_min then b else p.bytes_min
    cycles_max := if maxCond t b p.cycles_max p.bytes_max then t else p.cycles_max
    bytes_max := if maxCond t b p.cycles_max p.bytes_max then b else p.bytes_max
    cycles_avg := (p.cycles_avg * p.samples % U64 + t) % U64 / (p.samples + 1)
    bytes_avg := (p.bytes_avg * p.samples % U64 + b) % U64 / (p.samples + 1)
    samples := p.samples + 1 }

/-- Destructor `Drop for Profiled` (profile.rs lines 93-123): on scope exit read
`stop = get_timestamp()`; if `stop > start` fold `(stop - start, bytes)`
into the profile, otherwise leave the profile untouched. -/
def profiledDrop (start stop bytes : Nat) (p : Profile) : Profile :=
  if stop > start then foldSample p (stop - start) bytes else p

/-- Run a sequence of guard drops, each given as `(start, stop, bytes)`,
against one accumulator. -/
def runDrops (evs : List (Nat × Nat × Nat)) (p : Profile) : Profile :=
  evs.foldl (fun q ev => profiledDrop ev.1 ev.2.1 ev.2.2 q) p

/-- Fold a list of `(cycles, bytes)` samples into a fresh accumulator. -/
def statsOfFolds (l : List (Nat × Nat)) : Profile :=
  l.foldl (fun q cb => foldSample q cb.1 cb.2) (Profile.new "probe")

/-- The frequency computation of `init` (lib.rs lines 105-117):
`freq = (tsc_end - tsc_begin) * 1000000000 / (nsc_end - nsc_begin)` in
`u64` arithmetic.  `none` models the Rust panic on division by zero when
the wall-clock delta is zero; there is no guard in the source. -/
def calibrateFreq (tscBegin tscEnd nscBegin nscEnd : Nat) : Option Nat :=
  let cycleDelta := (U64 + tscEnd - tscBegin) % U64
  let wallDelta := (U64 + nscEnd - nscBegin) % U64
  if wallDelta = 0 then none
  else some (cycleDelta * 1000000000 % U64 / wallDelta)

/-- The global registry state: the `PROFILERS` slot table (profile.rs
line 7, `null` = unoccupied) and the `COUNTER` next-slot counter
(profile.rs line 8). -/
structure Registry where
  profilers : List (Option Profile)
  counter : Nat
deriving Repr

/-- The initial registry: `MAX_NUM_PROFILERS` null slots, counter 0
(profile.rs lines 7-8). -/
def Registry.new : Registry :=
  { profilers := List.replicate MAX_NUM_PROFILERS none, counter := 0 }

/-- The first-fire registration step of `Profiler::profile` (profile.rs
lines 58-63): `ix = COUNTER.fetch_add(1)` then `PROFILERS[ix] = self`.
`Except.error` models the Rust panic when the index fails the bounds
check of the slot table. -/
def registerProfiler (r : Registry) (p : Profile) : Except String Registry :=
  let ix := r.counter
  if ix < r.profilers.length then
    Except.ok { profilers := r.profilers.set ix (some p), counter := ix + 1 }
  else
    Except.error "index out of bounds"

/-- Register a list of distinct probes, in first-fire order, into a fresh
registry. -/
def registerAll (ps : List Profile) : Except String Registry :=
  ps.foldlM (fun r p => registerProfiler r p) Registry.new

/-- Function `visit_profiles` (profile.rs lines 125-133): read `n = COUNTER`,
walk the first `n` slots skipping nulls, and hand each occupied slot's
locked snapshot (`profile.clone()`) to the consumer.  The returned list
is the sequence of snapshots passed to the consumer, in slot order. -/
def visitProfiles (r : Registry) : List Profile :=
  (r.profilers.take r.counter).filterMap id

/-- The stored min pair is at-most-equal in throughput ratio, by
cross-multiplication, to every sample folded so far; the degenerate
all-zero min pair occurs only before the first fold. -/
def MinBound (p : Profile) (l : List (Nat × Nat)) : Prop :=
  (∀ cb ∈ l, p.cycles_min * cb.2 ≤ cb.1 * p.bytes_min) ∧
  (p.cycles_min = 0 ∧ p.bytes_min = 0 → l = [])

/-- The stored max pair is at-least-equal in throughput ratio, by
cross-multiplication, to every sample folded so far; the degenerate
all-zero max pair occurs only before the first fold. -/
def MaxBound (p : Profile) (l : List (Nat × Nat)) : Prop :=
  (∀ cb ∈ l, cb.1 * p.bytes_max ≤ p.cycles_max * cb.2) ∧
  (p.cycles_max = 0 ∧ p.bytes_max = 0 → l = [])

theorem foldSample_minBound (p : Profile) (l : List (Nat × Nat)) (t b : Nat)
    (ht : 0 < t) (h : MinBound p l) : MinBound (foldSample p t b) (l ++ [(t, b)]) := by
  obtain ⟨hinv, haux⟩ := h
  by_cases hc : t * p.bytes_min ≤ p.cycles_min * b
  · have hmin : (foldSample p t b).cycles_min = t := by simp [foldSample, minCond, hc]
    have hbmin : (foldSample p t b).bytes_min = b := by simp [foldSample, minCond, hc]
    constructor
    · intro cb hcb
      rw [hmin, hbmin]
      rcases List.mem_append.mp hcb with hl | hr
      · have hcb' := hinv cb hl
        by_cases hbm : p.bytes_min = 0
        · by_cases hcm : p.cycles_min = 0
          · have hnil : l = [] := haux ⟨hcm, hbm⟩
            rw [hnil] at hl
            simp at hl
          · rw [hbm, Nat.mul_zero] at hcb'
            have hcb2 : cb.2 = 0 := by
              rcases Nat.mul_eq_zero.mp (Nat.le_zero.mp hcb') with h0 | h0
              · exact absurd h0 hcm
              · exact h0
            rw [hcb2, Nat.mul_zero]
            exact Nat.zero_le _
        · have hbm' : 0 < p.bytes_min := Nat.pos_of_ne_zero hbm
          have hchain : p.bytes_min * (t * cb.2) ≤ p.bytes_min * (cb.1 * b) := by
            calc p.bytes_min * (t * cb.2) = t * p.bytes_min * cb.2 := by ring
              _ ≤ p.cycles_min * b * cb.2 := mul_le_mul_right' hc cb.2
              _ = p.cycles_min * cb.2 * b := by ring
              _ ≤ cb.1 * p.bytes_min * b := mul_le_mul_right' hcb' b
              _ = p.bytes_min * (cb.1 * b) := by ring
          exact Nat.le_of_mul_le_mul_left hchain hbm'
      · have hr' : cb = (t, b) := by simpa using hr
        rw [hr']
    · intro hzero
      rw [hmin] at hzero
      exact absurd hzero.1 (Nat.pos_iff_ne_zero.mp ht)
  · have hmin : (foldSample p t b).cycles_min = p.cycles_min := by
      simp [foldSample, minCond, hc]
    have hbmin : (foldSample p t b).bytes_min = p.bytes_min := by
      simp [foldSample, minCond, hc]
    constructor
    · intro cb hcb
      rw [hmin, hbmin]
      rcases List.mem_append.mp hcb with hl | hr
      · exact hinv cb hl
      · have hr' : cb = (t, b) := by simpa using hr
        rw [hr']
        exact le_of_lt (not_le.mp hc)
    · intro hzero
      rw [hmin, hbmin] at hzero
      exfalso
      apply hc
      rw [hzero.1, hzero.2]
      simp

theorem foldSample_maxBound (p : Profile) (l : List (Nat × Nat)) (t b : Nat)
    (ht : 0 < t) (h : MaxBound p l) : MaxBound (foldSample p t b) (l ++ [(t, b)]) := by
  obtain ⟨hinv, haux⟩ := h
  by_cases hc : p.cycles_max * b ≤ t * p.bytes_max
  · have hmax : (foldSample p t b).cycles_max = t := by simp [foldSample, maxCond, hc]
    have hbmax : (foldSample p t b).bytes_max = b := by simp [foldSample, maxCond, hc]
    constructor
    · intro cb hcb
      rw [hmax, hbmax]
      rcases List.mem_append.mp hcb with hl | hr
      · have hcb' := hinv cb hl
        by_cases hbm : p.bytes_max = 0
        · rw [hbm, Nat.mul_zero] at hc
          rcases Nat.mul_eq_zero.mp (Nat.le_zero.mp hc) with h0 | h0
          · have hnil : l = [] := haux ⟨h0, hbm⟩
            rw [hnil] at hl
            simp at hl
          · rw [h0, Nat.mul_zero]
            exact Nat.zero_le _
        · have hbm' : 0 < p.bytes_max := Nat.pos_of_ne_zero hbm
          have hchain : p.bytes_max * (cb.1 * b) ≤ p.bytes_max * (t * cb.2) := by
            calc p.bytes_max * (cb.1 * b) = cb.1 * p.bytes_max * b := by ring
              _ ≤ p.cycles_max * cb.2 * b := mul_le_mul_right' hcb' b
              _ = p.cycles_max * b * cb.2 := by ring
              _ ≤ t * p.bytes_max * cb.2 := mul_le_mul_right' hc cb.2
              _ = p.bytes_max * (t * cb.2) := by ring
          exact Nat.le_of_mul_le_mul_left hchain hbm'
      · have hr' : cb = (t, b) := by simpa using hr
        rw [hr']
    · intro hzero
      rw [hmax] at hzero
      exact absurd hzero.1 (Nat.pos_iff_ne_zero.mp ht)
  · have hmax : (foldSample p t b).cycles_max = p.cycles_max := by
      simp [foldSample, maxCond, hc]
    have hbmax : (foldSample p t b).bytes_max = p.bytes_max := by
      simp [foldSample, maxCond, hc]
    constructor
    · intro cb hcb
      rw [hmax, hbmax]
      rcases List.mem_append.mp hcb with hl | hr
      · exact hinv cb hl
      · have hr' : cb = (t, b) := by simpa using hr
        rw [hr']
        exact le_of_lt (not_le.mp hc)
    · intro hzero
      rw [hmax, hbmax] at hzero
      exfalso
      apply hc
      rw [hzero.1, hzero.2]
      simp

theorem foldl_minmaxBound (l2 : List (Nat × Nat)) :
    ∀ (p : Profile) (l1 : List (Nat × Nat)), (∀ cb ∈ l2, 0 < cb.1) →
    MinBound p l1 → MaxBound p l1 →
    MinBound (l2.foldl (fun q cb => foldSample q cb.1 cb.2) p) (l1 ++ l2) ∧
    MaxBound (l2.foldl (fun q cb => foldSample q cb.1 cb.2) p) (l1 ++ l2) := by
  induction l2 with
  | nil =>
    intro p l1 _ hmin hmax
    rw [List.append_nil]
    exact ⟨hmin, hmax⟩
  | cons cb l2 ih =>
    intro p l1 hpos hmin hmax
    have hpos1 : 0 < cb.1 := hpos cb (List.mem_cons_self cb l2)
    have hstep := ih (foldSample p cb.1 cb.2) (l1 ++ [cb])
      (fun x hx => hpos x (List.mem_cons_of_mem cb hx))
      (by simpa using foldSample_minBound p l1 cb.1 cb.2 hpos1 hmin)
      (by simpa using foldSample_maxBound p l1 cb.1 cb.2 hpos1 hmax)
    rw [List.append_assoc, List.singleton_append] at hstep
    exact hstep

/-- C1: after folding any sequence of samples with positive cycle counts
into a fresh accumulator, the stored min pair is at-most-equal and the
stored max pair at-least-equal in throughput ratio to every folded
sample (c, b), stated by cross-multiplication:
cycles_min * b ≤ c * bytes_min and c * bytes_max ≤ cycles_max * b. -/
theorem statsOfFolds_min_max_bound (l : List (Nat × Nat))
    (hpos : ∀ cb ∈ l, 0 < cb.1) (cb : Nat × Nat) (hmem : cb ∈ l) :
    (statsOfFolds l).cycles_min * cb.2 ≤ cb.1 * (statsOfFolds l).bytes_min ∧
    cb.1 * (statsOfFolds l).bytes_max ≤ (statsOfFolds l).cycles_max * cb.2 := by
  have hmin0 : MinBound (Profile.new "probe") [] := by
    constructor
    · intro x hx
      simp at hx
    · intro _
      rfl
  have hmax0 : MaxBound (Profile.new "probe") [] := by
    constructor
    · intro x hx
      simp at hx
    · intro _
      rfl
  have h := foldl_minmaxBound l (Profile.new "probe") [] hpos hmin0 hmax0
  rw [List.nil_append] at h
  exact ⟨h.1.1 cb hmem, h.2.1 cb hmem⟩

/-- Witness for C1: the fold sequence (100,10), (50,10) with the sample
(50,10). -/
theorem statsOfFolds_min_max_bound_witness :
    (statsOfFolds [(100, 10), (50, 10)]).cycles_min * 10 ≤
      50 * (statsOfFolds [(100, 10), (50, 10)]).bytes_min ∧
    50 * (statsOfFolds [(100, 10), (50, 10)]).bytes_max ≤
      (statsOfFolds [(100, 10), (50, 10)]).cycles_max * 10 :=
  statsOfFolds_min_max_bound [(100, 10), (50, 10)] (by decide) (50, 10) (by decide)

/-- One step of the running-mean update of profile.rs lines 117-118, in
u64 arithmetic: numerator products and sums wrap at 2 ^ 64, the division
truncates. -/
def avgStep (avg n x : Nat) : Nat :=
  (avg * n % U64 + x) % U64 / (n + 1)

/-- The spec's independent recomputation oracle: replay the same
incremental mean formula over the folded values in fold order, starting
from a zero mean and a zero count. -/
def runningAvg (xs : List Nat) : Nat :=
  (xs.foldl (fun an x => (avgStep an.1 an.2 x, an.2 + 1)) ((0 : Nat), (0 : Nat))).1

theorem foldl_foldSample_avg (l : List (Nat × Nat)) (p : Profile) :
    ((l.foldl (fun q cb => foldSample q cb.1 cb.2) p).cycles_avg,
      (l.foldl (fun q cb => foldSample q cb.1 cb.2) p).samples) =
      (l.map Prod.fst).foldl (fun an x => (avgStep an.1 an.2 x, an.2 + 1))
        (p.cycles_avg, p.samples) ∧
    ((l.foldl (fun q cb => foldSample q cb.1 cb.2) p).bytes_avg,
      (l.foldl (fun q cb => foldSample q cb.1 cb.2) p).samples) =
      (l.map Prod.snd).foldl (fun an x => (avgStep an.1 an.2 x, an.2 + 1))
        (p.bytes_avg, p.samples) := by
  induction l generalizing p with
  | nil => exact ⟨rfl, rfl⟩
  | cons cb l ih =>
    simp only [List.foldl_cons, List.map_cons]
    have h := ih (foldSample p cb.1 cb.2)
    rwa [show (foldSample p cb.1 cb.2).cycles_avg = avgStep p.cycles_avg p.samples cb.1 from rfl,
      show (foldSample p cb.1 cb.2).bytes_avg = avgStep p.bytes_avg p.samples cb.2 from rfl,
      show (foldSample p cb.1 cb.2).samples = p.samples + 1 from rfl] at h

/-- C4 (amended): each fold applies the incremental mean formula in u64
wrapping arithmetic, and for every fold sequence the stored averages
equal an independent replay of that same formula over the folded cycles
(resp. bytes) values in fold order. -/
theorem stats_avg_eq_running_recomputation (l : List (Nat × Nat)) :
    (statsOfFolds l).cycles_avg = runningAvg (l.map Prod.fst) ∧
    (statsOfFolds l).bytes_avg = runningAvg (l.map Prod.snd) := by
  have h := foldl_foldSample_avg l (Profile.new "probe")
  exact ⟨congrArg Prod.fst h.1, congrArg Prod.fst h.2⟩

theorem filter_kept_add_filter_dropped (evs : List (Nat × Nat × Nat)) :
    (evs.filter fun ev => ev.1 < ev.2.1).length +
      (evs.filter fun ev => ev.2.1 ≤ ev.1).length = evs.length := by
  induction evs with
  | nil => rfl
  | cons ev evs ih =>
    by_cases h : ev.1 < ev.2.1
    · rw [List.filter_cons_of_pos (by simpa using h),
        List.filter_cons_of_neg (by simpa using Nat.not_le.mpr h)]
      simpa using by omega
    · rw [List.filter_cons_of_neg (by simpa using h),
        List.filter_cons_of_pos (by simpa using Nat.not_lt.mp h)]
      simpa using by omega

theorem runDrops_samples_aux (evs : List (Nat × Nat × Nat)) (p : Profile) :
    (runDrops evs p).samples =
      p.samples + (evs.filter fun ev => ev.1 < ev.2.1).length := by
  induction evs generalizing p with
  | nil => simp [runDrops]
  | cons ev evs ih =>
    have hstep : runDrops (ev :: evs) p = runDrops evs (profiledDrop ev.1 ev.2.1 ev.2.2 p) := rfl
    rw [hstep, ih]
    by_cases h : ev.1 < ev.2.1
    · rw [profiledDrop, if_pos h, List.filter_cons_of_pos (by simpa using h)]
      have : (foldSample p (ev.2.1 - ev.1) ev.2.2).samples = p.samples + 1 := rfl
      rw [this]
      simp only [List.length_cons]
      omega
    · rw [profiledDrop, if_neg h, List.filter_cons_of_neg (by simpa using h)]

/-- C7: after any sequence of N guard drops on one fresh accumulator,
samples equals N minus the number of discarded drops (those with
stop ≤ start), and every single drop leaves samples no smaller than
before. -/
theorem runDrops_samples_count (name : String) (evs : List (Nat × Nat × Nat)) :
    (runDrops evs (Profile.new name)).samples =
      evs.length - (evs.filter fun ev => ev.2.1 ≤ ev.1).length ∧
    ∀ (q : Profile) (start stop bytes : Nat),
      q.samples ≤ (profiledDrop start stop bytes q).samples := by
  constructor
  · rw [runDrops_samples_aux]
    have h := filter_kept_add_filter_dropped evs
    have h0 : (Profile.new name).samples = 0 := rfl
    omega
  · intro q start stop bytes
    rw [profiledDrop]
    split
    · exact Nat.le_succ _
    · exact Nat.le_refl _

/-- C5: folding (100,10), (50,10), (200,10) into a fresh accumulator
yields cycles_min = 50, bytes_min = 10, cycles_max = 200, bytes_max = 10,
cycles_avg = 116 and samples = 3. -/
theorem statsOfFolds_concrete_scenario :
    (statsOfFolds [(100, 10), (50, 10), (200, 10)]).cycles_min = 50 ∧
    (statsOfFolds [(100, 10), (50, 10), (200, 10)]).bytes_min = 10 ∧
    (statsOfFolds [(100, 10), (50, 10), (200, 10)]).cycles_max = 200 ∧
    (statsOfFolds [(100, 10), (50, 10), (200, 10)]).bytes_max = 10 ∧
    (statsOfFolds [(100, 10), (50, 10), (200, 10)]).cycles_avg = 116 ∧
    (statsOfFolds [(100, 10), (50, 10), (200, 10)]).samples = 3 := by
  decide

/-- C6: a guard dropped with stop ≤ start leaves the profile record
completely unchanged and surfaces no error, and the fold with elapsed
cycles stop - start happens exactly when stop > start. -/
theorem profiledDrop_discard_or_fold (start stop bytes : Nat) (p : Profile) :
    (stop ≤ start → profiledDrop start stop bytes p = p) ∧
    (start < stop → profiledDrop start stop bytes p = foldSample p (stop - start) bytes) := by
  refine ⟨fun h => ?_, fun h => ?_⟩
  · rw [profiledDrop, if_neg (by omega)]
  · rw [profiledDrop, if_pos h]

/-- Witness for C6 at start = 5, stop = 3 (discard) and start = 3,
stop = 5 (fold). -/
theorem profiledDrop_discard_or_fold_witness :
    profiledDrop 5 3 7 (Profile.new "x") = Profile.new "x" ∧
    profiledDrop 3 5 7 (Profile.new "x") = foldSample (Profile.new "x") 2 7 :=
  ⟨(profiledDrop_discard_or_fold 5 3 7 (Profile.new "x")).1 (by decide),
   (profiledDrop_discard_or_fold 3 5 7 (Profile.new "x")).2 (by decide)⟩

/-- C8: a fresh accumulator has every statistics field zero, and the
first folded sample (c, b) with c > 0 unconditionally becomes both the
stored min pair and the stored max pair. -/
theorem fresh_profile_first_fold (name : String) (c b : Nat) (hc : 0 < c) :
    (Profile.new name).cycles_min = 0 ∧ (Profile.new name).cycles_max = 0 ∧
    (Profile.new name).cycles_avg = 0 ∧ (Profile.new name).bytes_min = 0 ∧
    (Profile.new name).bytes_max = 0 ∧ (Profile.new name).bytes_avg = 0 ∧
    (Profile.new name).samples = 0 ∧
    (foldSample (Profile.new name) c b).cycles_min = c ∧
    (foldSample (Profile.new name) c b).bytes_min = b ∧
    (foldSample (Profile.new name) c b).cycles_max = c ∧
    (foldSample (Profile.new name) c b).bytes_max = b := by
  refine ⟨rfl, rfl, rfl, rfl, rfl, rfl, rfl, ?_, ?_, ?_, ?_⟩ <;>
    simp [foldSample, minCond, maxCond, Profile.new]

/-- Witness for C8 at c = 7, b = 3. -/
theorem fresh_profile_first_fold_witness :
    (Profile.new "w").cycles_min = 0 ∧ (Profile.new "w").cycles_max = 0 ∧
    (Profile.new "w").cycles_avg = 0 ∧ (Profile.new "w").bytes_min = 0 ∧
    (Profile.new "w").bytes_max = 0 ∧ (Profile.new "w").bytes_avg = 0 ∧
    (Profile.new "w").samples = 0 ∧
    (foldSample (Profile.new "w") 7 3).cycles_min = 7 ∧
    (foldSample (Profile.new "w") 7 3).bytes_min = 3 ∧
    (foldSample (Profile.new "w") 7 3).cycles_max = 7 ∧
    (foldSample (Profile.new "w") 7 3).bytes_max = 3 :=
  fresh_profile_first_fold "w" 7 3 (by decide)

/-- C2 (code bug): with a zero wall-clock delta (nsc_begin = nsc_end = 5)
the calibration of `init` reaches the division with divisor 0 — `none`
here models the Rust division-by-zero panic; no guard, skip, or sentinel
exists in the source (lib.rs line 115). -/
theorem calibrateFreq_zero_wall_delta_panics :
    calibrateFreq 100 200 5 5 = none := by
  decide

/-- C3 (code bug): when the registry already holds
MAX_NUM_PROFILERS = 0x1000 probes, the next registration executes
`PROFILERS[0x1000] = self`, which fails the slot table's bounds check —
`Except.error` models the resulting Rust panic, a crash rather than a
reported registration error. -/
theorem registerProfiler_at_capacity_panics :
    registerProfiler
      { profilers := List.replicate MAX_NUM_PROFILERS (some (Profile.new "p")),
        counter := MAX_NUM_PROFILERS }
      (Profile.new "q") = Except.error "index out of bounds" := by
  simp [registerProfiler]

/-- C10: for u64 operands, the four u128 products of the min/max
cross-multiplication tests (profile.rs lines 102 and 109) never reach
2 ^ 128, and each machine-level comparison coincides with the comparison
over unbounded integers. -/
theorem crossmul_u128_matches_unbounded
    (t b tmin bmin tmax bmax : Nat)
    (ht : t < U64) (hb : b < U64) (htmin : tmin < U64) (hbmin : bmin < U64)
    (htmax : tmax < U64) (hbmax : bmax < U64) :
    t * bmin < U128 ∧ tmin * b < U128 ∧ t * bmax < U128 ∧ tmax * b < U128 ∧
    minCondU128 t b tmin bmin = minCond t b tmin bmin ∧
    maxCondU128 t b tmax bmax = maxCond t b tmax bmax := by
  have hUU : U64 * U64 = U128 := by
    rw [U64, U128, ← pow_add]
  have h1 : t * bmin < U128 := hUU ▸ Nat.mul_lt_mul'' ht hbmin
  have h2 : tmin * b < U128 := hUU ▸ Nat.mul_lt_mul'' htmin hb
  have h3 : t * bmax < U128 := hUU ▸ Nat.mul_lt_mul'' ht hbmax
  have h4 : tmax * b < U128 := hUU ▸ Nat.mul_lt_mul'' htmax hb
  refine ⟨h1, h2, h3, h4, ?_, ?_⟩
  · rw [minCondU128, minCond, Nat.mod_eq_of_lt ht, Nat.mod_eq_of_lt hb,
      Nat.mod_eq_of_lt htmin, Nat.mod_eq_of_lt hbmin,
      Nat.mod_eq_of_lt h1, Nat.mod_eq_of_lt h2]
  · rw [maxCondU128, maxCond, Nat.mod_eq_of_lt ht, Nat.mod_eq_of_lt hb,
      Nat.mod_eq_of_lt htmax, Nat.mod_eq_of_lt hbmax,
      Nat.mod_eq_of_lt h3, Nat.mod_eq_of_lt h4]

/-- Witness for C10 at the largest u64 value for all six operands. -/
theorem crossmul_u128_matches_unbounded_witness :
    (2 ^ 64 - 1) * (2 ^ 64 - 1) < U128 ∧ (2 ^ 64 - 1) * (2 ^ 64 - 1) < U128 ∧
    (2 ^ 64 - 1) * (2 ^ 64 - 1) < U128 ∧ (2 ^ 64 - 1) * (2 ^ 64 - 1) < U128 ∧
    minCondU128 (2 ^ 64 - 1) (2 ^ 64 - 1) (2 ^ 64 - 1) (2 ^ 64 - 1) =
      minCond (2 ^ 64 - 1) (2 ^ 64 - 1) (2 ^ 64 - 1) (2 ^ 64 - 1) ∧
    maxCondU128 (2 ^ 64 - 1) (2 ^ 64 - 1) (2 ^ 64 - 1) (2 ^ 64 - 1) =
      maxCond (2 ^ 64 - 1) (2 ^ 64 - 1) (2 ^ 64 - 1) (2 ^ 64 - 1) :=
  crossmul_u128_matches_unbounded (2 ^ 64 - 1) (2 ^ 64 - 1) (2 ^ 64 - 1)
    (2 ^ 64 - 1) (2 ^ 64 - 1) (2 ^ 64 - 1)
    (by decide) (by decide) (by decide) (by decide) (by decide) (by decide)

theorem ok_bind {α β : Type} (x : α) (f : α → Except String β) :
    (Except.ok x >>= f) = f x := rfl

/-- The registry state reached after the probes in `done` have registered,
in that order: their slots are occupied in registration order, the
remaining slots are still null, and the counter points past them. -/
def regState (done : List Profile) : Registry :=
  { profilers := done.map some ++
      List.replicate (MAX_NUM_PROFILERS - done.length) none
    counter := done.length }

theorem regState_nil : regState [] = Registry.new := rfl

theorem registerProfiler_regState (done : List Profile) (p : Profile)
    (h : done.length < MAX_NUM_PROFILERS) :
    registerProfiler (regState done) p = Except.ok (regState (done ++ [p])) := by
  have hmap : (done.map some).length = done.length := List.length_map done some
  rw [registerProfiler]
  have hlen : (regState done).counter < (regState done).profilers.length := by
    simp only [regState, List.length_append, List.length_replicate, hmap]
    omega
  rw [if_pos hlen]
  have hset : (regState done).profilers.set (regState done).counter (some p) =
      (regState (done ++ [p])).profilers := by
    simp only [regState]
    rw [List.set_append_right _ _ (le_of_eq hmap), hmap, Nat.sub_self,
      show MAX_NUM_PROFILERS - done.length =
        (MAX_NUM_PROFILERS - (done.length + 1)) + 1 by omega,
      List.replicate_succ, List.set_cons_zero, List.map_append]
    simp
  rw [hset]
  exact congrArg Except.ok (by simp [regState])

theorem registerAll_loop (rest : List Profile) :
    ∀ done : List Profile, done.length + rest.length ≤ MAX_NUM_PROFILERS →
    rest.foldlM (fun r p => registerProfiler r p) (regState done) =
      Except.ok (regState (done ++ rest)) := by
  induction rest with
  | nil => intro done h; simp; rfl
  | cons p rest ih =>
    intro done h
    have hct : done.length < MAX_NUM_PROFILERS := by
      simp only [List.length_cons] at h
      omega
    rw [List.foldlM_cons, registerProfiler_regState done p hct, ok_bind]
    have hrec := ih (done ++ [p])
      (by simp only [List.length_append, List.length_singleton,
            List.length_cons, List.length_nil] at h ⊢
          omega)
    rw [hrec, List.append_assoc, List.singleton_append]

theorem visitProfiles_regState (ps : List Profile) :
    visitProfiles (regState ps) = ps := by
  rw [visitProfiles, regState]
  rw [List.take_left' (List.length_map ps some), List.filterMap_map]
  simp

/-- C9: registering any list of distinct probes (within capacity) in
first-fire order and then visiting hands the consumer exactly the
registered snapshots, one per probe, in registration order. -/
theorem visitProfiles_registration_order (ps : List Profile)
    (h : ps.length ≤ MAX_NUM_PROFILERS) :
    Except.map visitProfiles (registerAll ps) = Except.ok ps := by
  have h0 := registerAll_loop ps [] (by simpa using h)
  rw [regState_nil, List.nil_append] at h0
  rw [registerAll, h0]
  rw [show Except.map visitProfiles (Except.ok (regState ps)) =
    Except.ok (visitProfiles (regState ps)) from rfl]
  rw [visitProfiles_regState]

/-- Witness for C9: probes a, b, c registered in that order are visited
in order a, b, c. -/
theorem visitProfiles_registration_order_witness :
    Except.map visitProfiles
      (registerAll [Profile.new "a", Profile.new "b", Profile.new "c"]) =
      Except.ok [Profile.new "a", Profile.new "b", Profile.new "c"] :=
  visitProfiles_registration_order
    [Profile.new "a", Profile.new "b", Profile.new "c"] (by decide)

/-- Counterexample to C4 as stated: two folds of the sample
(cycles = 13835058055282163712, bytes = 1) make the u64 numerator
`cycles_avg * samples + cycles` wrap at 2 ^ 64, so the stored average
(4611686018427387904) differs from the unbounded incremental formula
`(old_avg * samples + cycles) / (samples + 1)` = 13835058055282163712. -/
theorem cycles_avg_exact_formula_counterexample :
    (statsOfFolds [(13835058055282163712, 1), (13835058055282163712, 1)]).cycles_avg ≠
      (13835058055282163712 * 1 + 13835058055282163712) / 2 := by
  decide

end Foolprof
